import Mathlib

/-!
Verification of the two-party WebRTC signaling system.

Server side (server.js): a shallow embedding of the Socket.IO event
handlers as a step function on the server state.  The state mirrors the
two mutable collections of the server: the map of connected clients
(modelled by its insertion-ordered key list, since JavaScript Map keys
iterate in insertion order) and the readyClients Set (modelled by a
duplicate-free insertion-ordered list, since JavaScript Set iterates in
insertion order and Set.add of a present element is a no-op).

Client side (index.html, reproduced in the repository documentation):
a shallow embedding of the socket message handlers and the WebRTC helper
functions handleOffer, handleAnswer, handleIceCandidate, together with
the signaling-state bookkeeping of RTCPeerConnection that those handlers
consult.
-/

namespace VideoChat

/-- Socket identifier (socket.id), an opaque string. -/
abbrev Sid := String

/-- Opaque payload blob (an SDP description or an ICE candidate). -/
abbrev Payload := String

/-- Messages the server emits to clients. -/
inductive SMsg where
  | userCount (n : Nat)
  | readyCount (n : Nat)
  | startCall (initiator : Sid)
  | offer (payload : Payload) (sender : Sid)
  | answer (payload : Payload) (sender : Sid)
  | iceCandidate (payload : Payload) (sender : Sid)
  deriving DecidableEq

/-- A single emission together with its delivery scope: io.emit delivers
to every connected socket, socket.broadcast.emit to every connected
socket except the sender. -/
inductive Emit where
  | toAll (m : SMsg)
  | broadcastFrom (sender : Sid) (m : SMsg)
  deriving DecidableEq

/-- Client-to-server events handled by server.js. -/
inductive CEvent where
  | connect (p : Sid)
  | ready (p : Sid)
  | offer (p : Sid) (payload : Payload)
  | answer (p : Sid) (payload : Payload)
  | iceCandidate (p : Sid) (payload : Payload)
  | disconnect (p : Sid)
  deriving DecidableEq

/-- Server state: the key list of the clients Map and the element list of
the readyClients Set, both in insertion order. -/
structure ServerState where
  clients : List Sid
  ready : List Sid
  deriving DecidableEq

/-- The initial server state: both collections empty. -/
def initServer : ServerState := ⟨[], []⟩

/-- JavaScript Set.add / Map.set with a fresh key: append if absent,
no-op if present (insertion order of an existing element is kept). -/
def setAdd (l : List Sid) (p : Sid) : List Sid :=
  if p ∈ l then l else l ++ [p]

/-- JavaScript Set.delete / Map.delete: remove the element. -/
def setDelete (l : List Sid) (p : Sid) : List Sid :=
  l.filter (fun q => q ≠ p)

/-- The set of sockets an emission is delivered to, given the currently
connected sockets. -/
def recipients (clients : List Sid) : Emit → List Sid
  | .toAll _ => clients
  | .broadcastFrom sender _ => clients.filter (fun q => q ≠ sender)

/-- One step of the server: the Socket.IO handlers of server.js.
Returns the successor state and the list of emissions, in program order.
The ready handler mirrors lines 55-76: add to the ready set, broadcast
ready-count, and if the ready set size equals 2 broadcast start-call
with initiator equal to the first element of the ready set
(Array.from(readyClients)[0]). -/
def serverStep (s : ServerState) : CEvent → ServerState × List Emit
  | .connect p =>
      let clients := setAdd s.clients p
      ({ s with clients := clients }, [.toAll (.userCount clients.length)])
  | .ready p =>
      let ready := setAdd s.ready p
      if ready.length = 2 then
        ({ s with ready := ready },
          [.toAll (.readyCount ready.length), .toAll (.startCall (ready.headD ""))])
      else
        ({ s with ready := ready }, [.toAll (.readyCount ready.length)])
  | .offer p payload => (s, [.broadcastFrom p (.offer payload p)])
  | .answer p payload => (s, [.broadcastFrom p (.answer payload p)])
  | .iceCandidate p payload => (s, [.broadcastFrom p (.iceCandidate payload p)])
  | .disconnect p =>
      let clients := setDelete s.clients p
      ({ clients := clients, ready := setDelete s.ready p },
        [.toAll (.userCount clients.length)])

/-- Run the server over a trace of events, collecting all emissions in
order. -/
def serverRunOut (s : ServerState) : List CEvent → ServerState × List Emit
  | [] => (s, [])
  | e :: es =>
      let r1 := serverStep s e
      let r2 := serverRunOut r1.1 es
      (r2.1, r1.2 ++ r2.2)

/-- An event is valid in a state when its originating socket is currently
connected (Socket.IO only dispatches handlers of live sockets) and a
connect brings a fresh id (socket ids are never reused). -/
def ValidEvent (s : ServerState) : CEvent → Prop
  | .connect p => p ∉ s.clients
  | .ready p => p ∈ s.clients
  | .offer p _ => p ∈ s.clients
  | .answer p _ => p ∈ s.clients
  | .iceCandidate p _ => p ∈ s.clients
  | .disconnect p => p ∈ s.clients

instance instValidEventDecidable (s : ServerState) :
    (e : CEvent) → Decidable (ValidEvent s e)
  | .connect p => inferInstanceAs (Decidable (p ∉ s.clients))
  | .ready p => inferInstanceAs (Decidable (p ∈ s.clients))
  | .offer p _ => inferInstanceAs (Decidable (p ∈ s.clients))
  | .answer p _ => inferInstanceAs (Decidable (p ∈ s.clients))
  | .iceCandidate p _ => inferInstanceAs (Decidable (p ∈ s.clients))
  | .disconnect p => inferInstanceAs (Decidable (p ∈ s.clients))

/-- Server states reachable from the initial state by valid events. -/
inductive ServerReachable : ServerState → Prop where
  | init : ServerReachable initServer
  | step (s : ServerState) (e : CEvent) :
      ServerReachable s → ValidEvent s e → ServerReachable (serverStep s e).1

/-- Recognizes a start-call emission. -/
def isStartCall : Emit → Bool
  | .toAll (.startCall _) => true
  | .broadcastFrom _ (.startCall _) => true
  | _ => false

/-- Membership in the result of setAdd. -/
theorem mem_setAdd {l : List Sid} {a x : Sid} :
    x ∈ setAdd l a ↔ x ∈ l ∨ x = a := by
  unfold setAdd
  by_cases h : a ∈ l
  · simp only [h, if_true]
    exact ⟨Or.inl, fun hx => hx.elim id (fun he => he ▸ h)⟩
  · simp [h]

/-- A concrete server state used to instantiate several theorems:
the run connect x, connect y, ready y.  Note that x connected first but
y became ready first. -/
def sReadyY : ServerState :=
  (serverRunOut initServer [.connect "x", .connect "y", .ready "y"]).1

/-- C1: when the ready set holds exactly one participant a and a distinct
participant b signals ready, the step emits exactly one start-call, it is
delivered to every connected socket (io.emit), and the designated
initiator is a, the participant whose ready signal arrived first; the
ready set keeps readiness-arrival order a then b. -/
theorem election_first_ready_wins (s : ServerState) (a b : Sid)
    (hready : s.ready = [a]) (hne : b ≠ a) :
    (serverStep s (.ready b)).2 =
      [.toAll (.readyCount 2), .toAll (.startCall a)] ∧
    (serverStep s (.ready b)).1.ready = [a, b] ∧
    (serverStep s (.ready b)).1.clients = s.clients ∧
    recipients (serverStep s (.ready b)).1.clients (.toAll (.startCall a)) =
      s.clients := by
  have hadd : setAdd s.ready b = [a, b] := by
    unfold setAdd
    rw [hready]
    simp [hne]
  simp [serverStep, hadd, recipients]

/-- Witness for C1: in the run where x connects first, then y connects,
then y signals ready first, the ready signal of x triggers exactly one
start-call and the initiator is y (readiness-arrival order, not
connection order). -/
theorem election_first_ready_wins_w :
    sReadyY.ready = ["y"] ∧
    (serverStep sReadyY (.ready "x")).2 =
      [.toAll (.readyCount 2), .toAll (.startCall "y")] := by
  refine ⟨by decide, ?_⟩
  exact (election_first_ready_wins sReadyY "y" "x" (by decide) (by decide)).1

/-- C4: on an offer, answer or ice-candidate event from participant p the
server forwards, in the same step and with no state change (hence no
buffering), exactly one message carrying the unmodified payload and
sender id p; the delivery scope of socket.broadcast.emit is every
currently connected socket except p, and never p itself. -/
theorem relay_forwards (s : ServerState) (p : Sid) (d : Payload) :
    serverStep s (.offer p d) = (s, [.broadcastFrom p (.offer d p)]) ∧
    serverStep s (.answer p d) = (s, [.broadcastFrom p (.answer d p)]) ∧
    serverStep s (.iceCandidate p d) = (s, [.broadcastFrom p (.iceCandidate d p)]) ∧
    recipients s.clients (.broadcastFrom p (.offer d p)) =
      s.clients.filter (fun q => q ≠ p) ∧
    p ∉ recipients s.clients (.broadcastFrom p (.offer d p)) ∧
    ∀ q, q ∈ s.clients → q ≠ p →
      q ∈ recipients s.clients (.broadcastFrom p (.offer d p)) := by
  refine ⟨rfl, rfl, rfl, rfl, ?_, ?_⟩
  · simp [recipients]
  · intro q hq hqp
    simp [recipients, hq, hqp]

/-- Witness for C4 at a concrete state and payload. -/
theorem relay_forwards_w :
    serverStep sReadyY (.offer "y" "sdpO") =
      (sReadyY, [.broadcastFrom "y" (.offer "sdpO" "y")]) ∧
    recipients sReadyY.clients (.broadcastFrom "y" (.offer "sdpO" "y")) = ["x"] := by
  refine ⟨(relay_forwards sReadyY "y" "sdpO").1, by decide⟩

/-- C8: when the ready set already has size 2 and a third participant p
signals ready, the step emits only the ready-count update: no start-call
is emitted, so no second election happens and p is designated neither
initiator nor answerer; the connected set is untouched and p is merely
appended to the ready set. -/
theorem third_ready_no_election (s : ServerState) (p : Sid)
    (h2 : s.ready.length = 2) (hp : p ∉ s.ready) :
    (serverStep s (.ready p)).1.ready = s.ready ++ [p] ∧
    (serverStep s (.ready p)).1.clients = s.clients ∧
    (serverStep s (.ready p)).2 = [.toAll (.readyCount 3)] := by
  have hadd : setAdd s.ready p = s.ready ++ [p] := by
    unfold setAdd
    simp [hp]
  refine ⟨?_, ?_, ?_⟩
  · simp [serverStep, hadd, h2]
  · simp [serverStep, hadd, h2]
  · simp [serverStep, hadd, h2]

/-- A concrete server state with two ready participants, obtained from
the run connect a, connect b, connect c, ready a, ready b. -/
def sTwoReady : ServerState :=
  (serverRunOut initServer
    [.connect "a", .connect "b", .connect "c", .ready "a", .ready "b"]).1

/-- Witness for C8: a third connected participant c signaling ready after
a and b already elected produces only a ready-count broadcast. -/
theorem third_ready_no_election_w :
    (serverStep sTwoReady (.ready "c")).1.ready = ["a", "b", "c"] ∧
    (serverStep sTwoReady (.ready "c")).2 = [.toAll (.readyCount 3)] := by
  have h := third_ready_no_election sTwoReady "c" (by decide) (by decide)
  exact ⟨by rw [h.1]; decide, h.2.2⟩

/-- C5 counterexample: in the run connect a, connect b, ready a, ready b,
ready a, the final event is a duplicate ready from a participant already
in the ready set while the set has size 2, and the server emits a second
start-call: the whole trace contains two start-call broadcasts although
the ready set transitioned into size 2 only once.  This refutes the
claim that a duplicate ready signal causes no second start-session
broadcast. -/
theorem duplicate_ready_rebroadcasts :
    ((serverRunOut initServer
        [.connect "a", .connect "b", .ready "a", .ready "b", .ready "a"]).2.filter
      isStartCall).length = 2 := by decide

/-- C5 amended: a duplicate ready from a participant already in the ready
set leaves the server state unchanged (the Set.add is idempotent), but
because the size-2 check runs on every ready signal, a duplicate ready
received while the ready set has size 2 emits the ready-count again and
an additional start-call carrying the same initiator, the head of the
ready set. -/
theorem ready_idempotent_state_but_rebroadcast (s : ServerState) (p : Sid)
    (hp : p ∈ s.ready) :
    (serverStep s (.ready p)).1 = s ∧
    (s.ready.length = 2 →
      (serverStep s (.ready p)).2 =
        [.toAll (.readyCount 2), .toAll (.startCall (s.ready.headD ""))]) := by
  have hadd : setAdd s.ready p = s.ready := by
    unfold setAdd
    simp [hp]
  constructor
  · simp only [serverStep, hadd]
    split <;> rfl
  · intro h2
    simp [serverStep, hadd, h2]

/-- Witness for the amended C5: a duplicate ready from a in the
two-ready state keeps the state and re-emits start-call with initiator
a. -/
theorem ready_idempotent_state_but_rebroadcast_w :
    (serverStep sTwoReady (.ready "a")).1 = sTwoReady ∧
    (serverStep sTwoReady (.ready "a")).2 =
      [.toAll (.readyCount 2), .toAll (.startCall "a")] := by
  have h := ready_idempotent_state_but_rebroadcast sTwoReady "a" (by decide)
  exact ⟨h.1, by rw [h.2 (by decide)]; decide⟩

/-- Auxiliary: removing a present element from a duplicate-free list
shortens it by exactly one. -/
theorem length_filter_ne_of_mem (l : List Sid) (p : Sid) :
    p ∈ l → l.Nodup → (l.filter (fun q => q ≠ p)).length + 1 = l.length := by
  induction l with
  | nil => intro h _; cases h
  | cons a t ih =>
      intro hm hd
      have hnotin : a ∉ t := (List.nodup_cons.mp hd).1
      have hd2 : t.Nodup := (List.nodup_cons.mp hd).2
      by_cases hap : a = p
      · have hall : t.filter (fun q => q ≠ p) = t :=
          List.filter_eq_self.mpr
            (fun x hx => decide_eq_true (fun hxa => hnotin (hap ▸ hxa ▸ hx)))
        have hfa : (decide (a ≠ p)) = false := by
          simp [hap]
        rw [List.filter_cons, hfa]
        simp only [Bool.false_eq_true, if_false, hall, List.length_cons]
      · have hpt : p ∈ t := by
          rcases List.mem_cons.mp hm with he | ht
          · exact absurd he.symm hap
          · exact ht
        have hft : (decide (a ≠ p)) = true := by
          simp [hap]
        rw [List.filter_cons, hft]
        simp only [if_true, List.length_cons]
        rw [← ih hpt hd2]

/-- C6: disconnecting a participant p that is connected and ready removes
p from both collections, each shrinking by exactly one; the step emits
the user-count carrying the decremented connected count; a repeated
disconnect of p is a no-op on the state and repeats the same emission
(idempotence); and the next ready-count broadcast, triggered by any later
ready signal, is computed from the decremented ready set. -/
theorem disconnect_removes_both (s : ServerState) (p : Sid)
    (hc : p ∈ s.clients) (hr : p ∈ s.ready)
    (ndc : s.clients.Nodup) (ndr : s.ready.Nodup) :
    p ∉ (serverStep s (.disconnect p)).1.clients ∧
    p ∉ (serverStep s (.disconnect p)).1.ready ∧
    (serverStep s (.disconnect p)).1.clients.length + 1 = s.clients.length ∧
    (serverStep s (.disconnect p)).1.ready.length + 1 = s.ready.length ∧
    serverStep (serverStep s (.disconnect p)).1 (.disconnect p) =
      ((serverStep s (.disconnect p)).1, (serverStep s (.disconnect p)).2) ∧
    (serverStep s (.disconnect p)).2 =
      [.toAll (.userCount (serverStep s (.disconnect p)).1.clients.length)] ∧
    ∀ q : Sid, (serverStep (serverStep s (.disconnect p)).1 (.ready q)).2.head? =
      some (.toAll (.readyCount
        (setAdd (serverStep s (.disconnect p)).1.ready q).length)) := by
  have hfix : ∀ l : List Sid,
      (l.filter (fun q => q ≠ p)).filter (fun q => q ≠ p) =
        l.filter (fun q => q ≠ p) := by
    intro l
    exact List.filter_eq_self.mpr (fun x hx => (List.mem_filter.mp hx).2)
  refine ⟨?_, ?_, ?_, ?_, ?_, ?_, ?_⟩
  · simp [serverStep, setDelete]
  · simp [serverStep, setDelete]
  · simpa [serverStep, setDelete] using length_filter_ne_of_mem s.clients p hc ndc
  · simpa [serverStep, setDelete] using length_filter_ne_of_mem s.ready p hr ndr
  · simp [serverStep, setDelete, hfix]
  · simp [serverStep]
  · intro q
    simp only [serverStep]
    split <;> rfl

/-- Witness for C6: disconnecting a from the two-ready state removes it
from both collections, decrements both counts, is idempotent, and the
next ready-count broadcast reflects the decrement. -/
theorem disconnect_removes_both_w :
    "a" ∉ (serverStep sTwoReady (.disconnect "a")).1.clients ∧
    "a" ∉ (serverStep sTwoReady (.disconnect "a")).1.ready ∧
    (serverStep sTwoReady (.disconnect "a")).1.clients.length + 1 = 3 ∧
    (serverStep sTwoReady (.disconnect "a")).1.ready.length + 1 = 2 ∧
    (serverStep sTwoReady (.disconnect "a")).2 =
      [.toAll (.userCount 2)] ∧
    (serverStep (serverStep sTwoReady (.disconnect "a")).1 (.ready "c")).2.head? =
      some (.toAll (.readyCount 2)) := by
  have h := disconnect_removes_both sTwoReady "a"
    (by decide) (by decide) (by decide) (by decide)
  refine ⟨h.1, h.2.1, ?_, ?_, ?_, ?_⟩
  · exact h.2.2.1.trans (by decide)
  · exact h.2.2.2.1.trans (by decide)
  · exact h.2.2.2.2.2.1.trans (by decide)
  · exact (h.2.2.2.2.2.2 "c").trans (by decide)

/-- C10: in every reachable server state the ready set is a subset of the
connected set; a ready signal only ever adds the id of a currently
connected socket, and a disconnect removes the id from both collections,
so the subset relation is preserved by every connection, ready and
disconnect event. -/
theorem ready_subset_clients (s : ServerState) (h : ServerReachable s) :
    s.ready ⊆ s.clients := by
  induction h with
  | init => intro x hx; cases hx
  | step s e hs hv ih =>
      cases e with
      | connect p =>
          intro x hx
          simp only [serverStep] at hx ⊢
          exact mem_setAdd.mpr (Or.inl (ih hx))
      | ready p =>
          have hcl : (serverStep s (.ready p)).1.clients = s.clients := by
            simp only [serverStep]
            split <;> rfl
          have hrd : (serverStep s (.ready p)).1.ready = setAdd s.ready p := by
            simp only [serverStep]
            split <;> rfl
          intro x hx
          rw [hrd] at hx
          rw [hcl]
          rcases mem_setAdd.mp hx with hxr | hxp
          · exact ih hxr
          · exact hxp ▸ (hv : p ∈ s.clients)
      | offer p d => exact ih
      | answer p d => exact ih
      | iceCandidate p d => exact ih
      | disconnect p =>
          intro x hx
          simp only [serverStep, setDelete, List.mem_filter] at hx ⊢
          exact ⟨ih hx.1, hx.2⟩

/-- Witness for C10: the subset invariant at the concrete reachable state
built from connect x, connect y, ready y. -/
theorem ready_subset_clients_w : sReadyY.ready ⊆ sReadyY.clients := by
  have h1 : ServerReachable (serverStep initServer (.connect "x")).1 :=
    ServerReachable.step _ _ ServerReachable.init (by decide)
  have h2 : ServerReachable
      (serverStep (serverStep initServer (.connect "x")).1 (.connect "y")).1 :=
    ServerReachable.step _ _ h1 (by decide)
  have h3 : ServerReachable
      (serverStep (serverStep (serverStep initServer (.connect "x")).1
        (.connect "y")).1 (.ready "y")).1 :=
    ServerReachable.step _ _ h2 (by decide)
  exact ready_subset_clients _ h3

/-! Client model: the WebRTC client reproduced in the repository
documentation (index.html).  The signaling state and description slots
mirror the RTCPeerConnection bookkeeping that the handlers consult; the
applied list records, in call order, the candidates passed to
addIceCandidate. -/

/-- RTCPeerConnection signaling states used by the client. -/
inductive SigState where
  | stable
  | haveLocalOffer
  | haveRemoteOffer
  deriving DecidableEq

/-- The negotiation-relevant view of an RTCPeerConnection. -/
structure RTCPeerConn where
  signalingState : SigState
  localDescription : Option Payload
  remoteDescription : Option Payload
  applied : List Payload
  deriving DecidableEq

/-- A freshly constructed RTCPeerConnection: stable, no descriptions, no
candidates applied. -/
def newPeerConnection : RTCPeerConn := ⟨.stable, none, none, []⟩

/-- Messages the client emits to the signaling server. -/
inductive ClientOut where
  | readyMsg
  | offerMsg (payload : Payload)
  | answerMsg (payload : Payload)
  deriving DecidableEq

/-- Client state: the mutable globals of index.html that the negotiation
logic reads and writes.  localStream is whether getUserMedia succeeded;
outbox records the socket emissions in order. -/
structure ClientState where
  localStream : Bool
  isInitiator : Bool
  peerConnection : Option RTCPeerConn
  iceCandidateQueue : List Payload
  outbox : List ClientOut
  deriving DecidableEq

/-- The client state at page load. -/
def initClient : ClientState := ⟨false, false, none, [], []⟩

/-- The start button handler: acquire the local media stream and signal
ready to the server. -/
def startLocal (s : ClientState) : ClientState :=
  { s with localStream := true, outbox := s.outbox ++ [.readyMsg] }

/-- createAndSendOffer: create an offer (payload o chosen by the
browser), set it as local description and emit it.  setLocalDescription
with an offer is invalid in the have-remote-offer state; the surrounding
try block then only logs, leaving the state unchanged. -/
def createAndSendOffer (s : ClientState) (o : Payload) : ClientState :=
  match s.peerConnection with
  | none => s
  | some pc =>
      if pc.signalingState = .haveRemoteOffer then s
      else
        { s with
          peerConnection := some { pc with
            localDescription := some o,
            signalingState := .haveLocalOffer },
          outbox := s.outbox ++ [.offerMsg o] }

/-- The start-call handler: only acts when no peer connection exists and
the local stream is running; the designated initiator creates the peer
connection and sends an offer, the other side just waits. -/
def onStartCall (s : ClientState) (myId initiator : Sid) (o : Payload) :
    ClientState :=
  if s.peerConnection.isNone && s.localStream then
    if initiator = myId then
      createAndSendOffer
        { s with isInitiator := true, peerConnection := some newPeerConnection } o
    else s
  else s

/-- The try block of handleOffer, entered with the current peer
connection pc (s.peerConnection = some pc at every call site):
setRemoteDescription with an offer throws in the have-local-offer state
(the catch block only logs), otherwise the remote description is stored,
the queued candidates are applied in FIFO order, an answer (payload ans
chosen by the browser) is created, set as local description and
emitted. -/
def handleOfferCore (s : ClientState) (pc : RTCPeerConn) (o ans : Payload) :
    ClientState :=
  if pc.signalingState = .haveLocalOffer then s
  else
    { s with
      peerConnection := some { pc with
        remoteDescription := some o,
        applied := pc.applied ++ s.iceCandidateQueue,
        localDescription := some ans,
        signalingState := .stable },
      iceCandidateQueue := [],
      outbox := s.outbox ++ [.answerMsg ans] }

/-- handleOffer: if no peer connection exists one is created; with no
local stream the subsequent track enumeration throws before the try
block, so only the fresh peer connection remains.  Otherwise the try
block runs. -/
def handleOffer (s : ClientState) (o ans : Payload) : ClientState :=
  match s.peerConnection with
  | some pc => handleOfferCore s pc o ans
  | none =>
      if s.localStream then
        handleOfferCore { s with peerConnection := some newPeerConnection }
          newPeerConnection o ans
      else
        { s with peerConnection := some newPeerConnection }

/-- The offer socket handler: ignore the offer when a peer connection
already exists and the local role is Initiator; otherwise clear the
initiator flag and process the offer. -/
def onOfferMsg (s : ClientState) (o ans : Payload) : ClientState :=
  if s.peerConnection.isSome && s.isInitiator then s
  else handleOffer { s with isInitiator := false } o ans

/-- handleAnswer: with no peer connection, or with a signaling state
other than have-local-offer, only a diagnostic is logged and nothing
changes; otherwise the answer becomes the remote description and the
queued candidates are applied in FIFO order, emptying the queue. -/
def handleAnswer (s : ClientState) (a : Payload) : ClientState :=
  match s.peerConnection with
  | none => s
  | some pc =>
      if pc.signalingState = .haveLocalOffer then
        { s with
          peerConnection := some { pc with
            remoteDescription := some a,
            signalingState := .stable,
            applied := pc.applied ++ s.iceCandidateQueue },
          iceCandidateQueue := [] }
      else s

/-- handleIceCandidate: with no peer connection the candidate is queued;
with a remote description present it is applied immediately; otherwise
it is queued until the remote description is set. -/
def handleIceCandidate (s : ClientState) (c : Payload) : ClientState :=
  match s.peerConnection with
  | none => { s with iceCandidateQueue := s.iceCandidateQueue ++ [c] }
  | some pc =>
      if pc.remoteDescription.isSome then
        { s with peerConnection := some { pc with applied := pc.applied ++ [c] } }
      else
        { s with iceCandidateQueue := s.iceCandidateQueue ++ [c] }

/-- Events a client machine processes: the local start action and the
four socket messages relevant to negotiation. -/
inductive ClientEvent where
  | start
  | startCall (initiator : Sid) (offerPayload : Payload)
  | offerMsg (o ans : Payload)
  | answerMsg (a : Payload)
  | candidateMsg (c : Payload)
  deriving DecidableEq

/-- One step of the client machine with local id myId. -/
def clientStep (myId : Sid) (s : ClientState) : ClientEvent → ClientState
  | .start => startLocal s
  | .startCall initiator o => onStartCall s myId initiator o
  | .offerMsg o ans => onOfferMsg s o ans
  | .answerMsg a => handleAnswer s a
  | .candidateMsg c => handleIceCandidate s c

/-- Run the client machine over a list of events. -/
def clientRun (myId : Sid) (s : ClientState) : List ClientEvent → ClientState
  | [] => s
  | e :: es => clientRun myId (clientStep myId s e) es

/-- Client states reachable from page load. -/
inductive ClientReachable (myId : Sid) : ClientState → Prop where
  | init : ClientReachable myId initClient
  | step (s : ClientState) (e : ClientEvent) :
      ClientReachable myId s → ClientReachable myId (clientStep myId s e)

/-- Receive a list of candidate messages in order. -/
def recvCandidates (s : ClientState) (cs : List Payload) : ClientState :=
  cs.foldl handleIceCandidate s

/-- The candidates applied to the peer connection so far, in apply-call
order. -/
def appliedOf (s : ClientState) : List Payload :=
  match s.peerConnection with
  | none => []
  | some pc => pc.applied

/-- handleAnswer with no peer connection: nothing happens. -/
theorem handleAnswer_eq_none {s : ClientState} {a : Payload}
    (hpc : s.peerConnection = none) : handleAnswer s a = s := by
  unfold handleAnswer
  rw [hpc]

/-- handleAnswer outside the have-local-offer state: nothing happens. -/
theorem handleAnswer_eq_guard {s : ClientState} {a : Payload} {pc : RTCPeerConn}
    (hpc : s.peerConnection = some pc)
    (hsig : pc.signalingState ≠ .haveLocalOffer) : handleAnswer s a = s := by
  unfold handleAnswer
  rw [hpc]
  exact if_neg hsig

/-- handleAnswer in the have-local-offer state: the answer becomes the
remote description and the queue is drained in FIFO order. -/
theorem handleAnswer_eq_apply {s : ClientState} {a : Payload} {pc : RTCPeerConn}
    (hpc : s.peerConnection = some pc)
    (hsig : pc.signalingState = .haveLocalOffer) :
    handleAnswer s a =
      { s with
        peerConnection := some { pc with
          remoteDescription := some a,
          signalingState := .stable,
          applied := pc.applied ++ s.iceCandidateQueue },
        iceCandidateQueue := [] } := by
  unfold handleAnswer
  rw [hpc]
  exact if_pos hsig

/-- handleIceCandidate with no peer connection: the candidate is
queued. -/
theorem handleIceCandidate_eq_queue_none {s : ClientState} {c : Payload}
    (hpc : s.peerConnection = none) :
    handleIceCandidate s c =
      { s with iceCandidateQueue := s.iceCandidateQueue ++ [c] } := by
  unfold handleIceCandidate
  rw [hpc]

/-- handleIceCandidate without a remote description: the candidate is
queued. -/
theorem handleIceCandidate_eq_queue {s : ClientState} {c : Payload}
    {pc : RTCPeerConn} (hpc : s.peerConnection = some pc)
    (hrd : pc.remoteDescription.isSome = false) :
    handleIceCandidate s c =
      { s with iceCandidateQueue := s.iceCandidateQueue ++ [c] } := by
  unfold handleIceCandidate
  rw [hpc]
  simp [hrd]

/-- handleIceCandidate with a remote description present: the candidate
is applied immediately. -/
theorem handleIceCandidate_eq_apply {s : ClientState} {c : Payload}
    {pc : RTCPeerConn} (hpc : s.peerConnection = some pc)
    (hrd : pc.remoteDescription.isSome = true) :
    handleIceCandidate s c =
      { s with peerConnection := some { pc with applied := pc.applied ++ [c] } } := by
  unfold handleIceCandidate
  rw [hpc]
  simp [hrd]

/-- createAndSendOffer never touches the initiator flag. -/
theorem createAndSendOffer_isInitiator (s : ClientState) (o : Payload) :
    (createAndSendOffer s o).isInitiator = s.isInitiator := by
  unfold createAndSendOffer
  cases s.peerConnection with
  | none => rfl
  | some pc =>
      dsimp only
      split <;> rfl

/-- The role and signaling-state invariant of the client: a machine that
is not the initiator never holds a peer connection in the
have-local-offer state, because only the designated initiator ever sets
a local offer. -/
def ClientInv (s : ClientState) : Prop :=
  s.isInitiator = false → ∀ pc, s.peerConnection = some pc →
    pc.signalingState ≠ .haveLocalOffer

/-- After handleOffer, the peer connection is either in the stable state
or is the untouched original connection. -/
theorem handleOffer_pc_state (s : ClientState) (o ans : Payload)
    (pc2 : RTCPeerConn)
    (h2 : (handleOffer s o ans).peerConnection = some pc2) :
    pc2.signalingState = .stable ∨ s.peerConnection = some pc2 := by
  rcases hpc : s.peerConnection with _ | pc
  · by_cases hls : s.localStream
    · left
      simp [handleOffer, hpc, hls, handleOfferCore, newPeerConnection] at h2
      rw [← h2]
    · left
      simp [handleOffer, hpc, hls, newPeerConnection] at h2
      rw [← h2]
  · by_cases hsig : pc.signalingState = .haveLocalOffer
    · right
      simp [handleOffer, hpc, handleOfferCore, hsig] at h2
      exact congrArg some h2
    · left
      simp [handleOffer, hpc, handleOfferCore, hsig] at h2
      rw [← h2]

/-- Every client step preserves the role and signaling-state
invariant. -/
theorem clientInv_step (myId : Sid) (s : ClientState) (e : ClientEvent)
    (h : ClientInv s) : ClientInv (clientStep myId s e) := by
  cases e with
  | start =>
      intro hI pc hpc
      exact h hI pc hpc
  | startCall initiator o =>
      show ClientInv (onStartCall s myId initiator o)
      unfold onStartCall
      split
      · split
        · intro hI pc hpc
          rw [createAndSendOffer_isInitiator] at hI
          simp at hI
        · exact h
      · exact h
  | offerMsg o ans =>
      show ClientInv (onOfferMsg s o ans)
      unfold onOfferMsg
      split
      · exact h
      · rename_i hg
        intro hI pc2 hpc2
        rcases handleOffer_pc_state _ o ans pc2 hpc2 with hst | hold
        · rw [hst]
          decide
        · have hiso : s.peerConnection = some pc2 := hold
          have hsi : s.isInitiator = false := by
            cases hb : s.isInitiator
            · rfl
            · exact absurd (by simp [hiso, hb]) hg
          exact h hsi pc2 hiso
  | answerMsg a =>
      show ClientInv (handleAnswer s a)
      rcases hpc : s.peerConnection with _ | pc
      · rw [handleAnswer_eq_none hpc]
        exact h
      · by_cases hsig : pc.signalingState = .haveLocalOffer
        · rw [handleAnswer_eq_apply hpc hsig]
          intro hI pc2 hpc2
          simp at hpc2
          rw [← hpc2]
          simp
        · rw [handleAnswer_eq_guard hpc hsig]
          exact h
  | candidateMsg c =>
      show ClientInv (handleIceCandidate s c)
      rcases hpc : s.peerConnection with _ | pc
      · rw [handleIceCandidate_eq_queue_none hpc]
        intro hI pc2 hpc2
        simp [hpc] at hpc2
      · by_cases hr : pc.remoteDescription.isSome = true
        · rw [handleIceCandidate_eq_apply hpc hr]
          intro hI pc2 hpc2
          simp at hpc2
          rw [← hpc2]
          exact h hI pc hpc
        · have hrf : pc.remoteDescription.isSome = false := by
            cases hb : pc.remoteDescription.isSome
            · rfl
            · exact absurd hb hr
          rw [handleIceCandidate_eq_queue hpc hrf]
          intro hI pc2 hpc2
          simp [hpc] at hpc2
          rw [← hpc2]
          exact h hI pc hpc

/-- The invariant holds in every reachable client state. -/
theorem clientInv_reachable (myId : Sid) (s : ClientState)
    (h : ClientReachable myId s) : ClientInv s := by
  induction h with
  | init =>
      intro _ pc hpc
      exact Option.noConfusion hpc
  | step s e hs ih => exact clientInv_step myId s e ih

/-- C3: in every reachable client state, an answer received while the
local role is not Initiator, or while the signaling state is not
have-local-offer, is discarded without mutating any part of the state:
the remote description is not set and the candidate queue is not
drained.  The code only checks the signaling state, but in reachable
states a non-initiator never holds a connection in have-local-offer, so
either disjunct forces the discard. -/
theorem answer_guard_no_mutation (myId : Sid) (s : ClientState)
    (hreach : ClientReachable myId s) (a : Payload)
    (hguard : s.isInitiator = false ∨
      ∀ pc, s.peerConnection = some pc → pc.signalingState ≠ .haveLocalOffer) :
    handleAnswer s a = s := by
  have hng : ∀ pc, s.peerConnection = some pc →
      pc.signalingState ≠ .haveLocalOffer := by
    rcases hguard with hI | hng
    · exact clientInv_reachable myId s hreach hI
    · exact hng
  rcases hpc : s.peerConnection with _ | pc
  · exact handleAnswer_eq_none hpc
  · exact handleAnswer_eq_guard hpc (hng pc hpc)

/-- A concrete reachable answerer state: local start, then an offer was
processed and answered (signaling state stable, role not initiator). -/
def cAnswered : ClientState :=
  clientRun "me" initClient [.start, .offerMsg "sdpO" "sdpA"]

/-- Witness for C3: a stray answer arriving at the answerer after it
already answered is discarded without any state change. -/
theorem answer_guard_no_mutation_w :
    handleAnswer cAnswered "sdpB" = cAnswered :=
  answer_guard_no_mutation "me" cAnswered
    (ClientReachable.step (clientStep "me" initClient .start)
      (.offerMsg "sdpO" "sdpA")
      (ClientReachable.step initClient .start ClientReachable.init))
    "sdpB" (Or.inl (by decide))

/-- Candidates received while the remote description is absent are all
appended to the queue, in arrival order, and the peer connection is
untouched. -/
theorem recvCandidates_queues (pc : RTCPeerConn)
    (hrd : pc.remoteDescription = none) :
    ∀ (cs : List Payload) (s : ClientState), s.peerConnection = some pc →
      recvCandidates s cs =
        { s with iceCandidateQueue := s.iceCandidateQueue ++ cs } := by
  intro cs
  induction cs with
  | nil =>
      intro s h
      simp [recvCandidates]
  | cons c cs ih =>
      intro s h
      have hns : pc.remoteDescription.isSome = false := by
        rw [hrd]
        rfl
      have h1 : handleIceCandidate s c =
          { s with iceCandidateQueue := s.iceCandidateQueue ++ [c] } := by
        simp [handleIceCandidate, h, hns]
      have h2 : recvCandidates s (c :: cs) =
          recvCandidates (handleIceCandidate s c) cs := rfl
      rw [h2, h1, ih _ (by simp [h])]
      simp

/-- C2: all candidates received before the remote description is applied
are appended to the candidate queue in arrival order with none lost or
applied early, and when the answer is applied the buffered candidates
are applied in exactly that FIFO order, leaving the queue empty. -/
theorem candidates_fifo (s : ClientState) (pc : RTCPeerConn)
    (cs : List Payload) (a : Payload)
    (hpc : s.peerConnection = some pc)
    (hrd : pc.remoteDescription = none)
    (hsig : pc.signalingState = .haveLocalOffer) :
    (recvCandidates s cs).iceCandidateQueue = s.iceCandidateQueue ++ cs ∧
    (recvCandidates s cs).peerConnection = some pc ∧
    (handleAnswer (recvCandidates s cs) a).peerConnection =
      some { pc with remoteDescription := some a, signalingState := .stable,
                     applied := pc.applied ++ (s.iceCandidateQueue ++ cs) } ∧
    (handleAnswer (recvCandidates s cs) a).iceCandidateQueue = [] := by
  have hq := recvCandidates_queues pc hrd cs s hpc
  refine ⟨by rw [hq], by rw [hq]; exact hpc, ?_, ?_⟩
  · rw [hq]
    simp [handleAnswer, hpc, hsig]
  · rw [hq]
    simp [handleAnswer, hpc, hsig]

/-- A concrete reachable initiator state: local start, then the
start-call named this client initiator and it sent the offer sdpO. -/
def cOffered : ClientState :=
  clientRun "me" initClient [.start, .startCall "me" "sdpO"]

/-- Witness for C2: candidates c1, c2, c3 arriving at the initiator
before the answer are queued, and applying the answer applies exactly
c1, c2, c3 in that order and empties the queue. -/
theorem candidates_fifo_w :
    (handleAnswer (recvCandidates cOffered ["c1", "c2", "c3"]) "sdpA").peerConnection =
      some ⟨.stable, some "sdpO", some "sdpA", ["c1", "c2", "c3"]⟩ ∧
    (handleAnswer (recvCandidates cOffered ["c1", "c2", "c3"]) "sdpA").iceCandidateQueue =
      [] := by
  have h := candidates_fifo cOffered ⟨.haveLocalOffer, some "sdpO", none, []⟩
    ["c1", "c2", "c3"] "sdpA" (by decide) rfl rfl
  exact ⟨h.2.2.1.trans (by decide), h.2.2.2⟩

/-- C9: a candidate is never silently lost: with no peer connection at
all it is appended to the queue (and no error is raised), and in every
state it is either appended to the queue with the applied list untouched
or applied immediately with the queue untouched. -/
theorem candidate_never_lost (s : ClientState) (c : Payload) :
    (s.peerConnection = none →
      (handleIceCandidate s c).iceCandidateQueue = s.iceCandidateQueue ++ [c] ∧
      (handleIceCandidate s c).peerConnection = none) ∧
    ((handleIceCandidate s c).iceCandidateQueue = s.iceCandidateQueue ++ [c] ∧
        appliedOf (handleIceCandidate s c) = appliedOf s ∨
      (handleIceCandidate s c).iceCandidateQueue = s.iceCandidateQueue ∧
        appliedOf (handleIceCandidate s c) = appliedOf s ++ [c]) := by
  rcases hpc : s.peerConnection with _ | pc
  · refine ⟨fun _ => ⟨?_, ?_⟩, Or.inl ⟨?_, ?_⟩⟩ <;>
      simp [handleIceCandidate, appliedOf, hpc]
  · refine ⟨fun hn => Option.noConfusion hn, ?_⟩
    by_cases hr : pc.remoteDescription.isSome
    · exact Or.inr ⟨by simp [handleIceCandidate, hpc, hr],
        by simp [appliedOf, handleIceCandidate, hpc, hr]⟩
    · exact Or.inl ⟨by simp [handleIceCandidate, hpc, hr],
        by simp [appliedOf, handleIceCandidate, hpc, hr]⟩

/-- Witness for C9: at page load, before any peer connection exists, a
candidate is queued rather than dropped. -/
theorem candidate_never_lost_w :
    (handleIceCandidate initClient "c0").iceCandidateQueue =
      initClient.iceCandidateQueue ++ ["c0"] ∧
    (handleIceCandidate initClient "c0").peerConnection = none :=
  (candidate_never_lost initClient "c0").1 rfl

/-- Whether a trace contains a start-session notification. -/
def hasStartCallEvent : List ClientEvent → Bool
  | [] => false
  | .startCall _ _ :: _ => true
  | _ :: es => hasStartCallEvent es

/-- C7 counterexample: the client that ran only the local start action
never received a start-session notification, so by the specification it
sits in AwaitingPeer, not Answering, and holds no peer connection as
Initiator; yet an incoming offer is not ignored: the machine creates a
peer connection, mutates its state and emits an answer.  This refutes
the claim that an offer arriving in a non-Answering state is ignored. -/
theorem offer_not_ignored_cx :
    hasStartCallEvent [ClientEvent.start] = false ∧
    (clientRun "me" initClient [.start]).peerConnection = none ∧
    (clientRun "me" initClient [.start]).isInitiator = false ∧
    (onOfferMsg (clientRun "me" initClient [.start]) "sdpO" "sdpA").outbox =
      (clientRun "me" initClient [.start]).outbox ++ [.answerMsg "sdpA"] ∧
    onOfferMsg (clientRun "me" initClient [.start]) "sdpO" "sdpA" ≠
      clientRun "me" initClient [.start] := by
  decide

/-- C7 amended: the implemented duplicate-offer protection is exactly
the second disjunct of the claim: when a peer connection already exists
and the local role is Initiator, the incoming offer is ignored, no
answer is produced and the state is unchanged.  The non-Answering half
of the stated guard is not implemented. -/
theorem offer_ignored_when_initiator (s : ClientState) (o ans : Payload)
    (hpc : s.peerConnection.isSome = true) (hin : s.isInitiator = true) :
    onOfferMsg s o ans = s := by
  unfold onOfferMsg
  rw [if_pos (by simp [hpc, hin])]

/-- Witness for the amended C7: the initiator that already sent its
offer ignores an incoming offer entirely. -/
theorem offer_ignored_when_initiator_w :
    onOfferMsg cOffered "sdpX" "sdpY" = cOffered :=
  offer_ignored_when_initiator cOffered "sdpX" "sdpY" (by decide) (by decide)

end VideoChat
